import Mathlib

/-!
Verification of the badminton elimination program
(`src/badminton_elimination.py`) against its natural-language
specification.

The development shallow-embeds the `Division` and `Team` classes and the
methods `readDivision`, `get_team_IDs`, `is_eliminated`, `create_network`,
`network_flows`, `linear_programming`, `checkTeam` and `get_against`.
Python dictionaries are modelled by insertion-ordered association lists,
the mutable `self.G` networkx graph by an explicit `Graph` value threaded
through the methods, and Python exceptions (`KeyError` from dictionary
access, `ValueError` raised by the program) by an `Except Err` result
paired with the post-state of the division.

The external solver libraries (the networkx `maximum_flow` routine and
the picos/cvxopt linear-programming solve) are not part of this
repository; following the specification they are modelled as solver
oracles `Graph → ℤ` and `Graph → ℚ` passed to the embedded methods, with
their contracts (stated by the specification) taken as hypotheses, and an
executable reference maximum-flow function `maxFlowValue` realising the
contract for witnesses.
-/

namespace Badminton

/-- Python exception kinds raised by the program: `KeyError` from a
dictionary access such as `self.teams[teamID]`, and `ValueError` raised
explicitly by `get_against` and `checkTeam`. The `KeyError` and the
`ValueError` of `get_against` both signal an unknown team / unlisted
opponent. -/
inductive Err where
  | keyError
  | valueError
deriving DecidableEq, Repr

/-- The `Team` class: ID, human-readable name, wins, losses, remaining
games, and the per-opponent remaining-game counts. In the source,
`against` is the list of column values of the team row (0-indexed by
opponent id), parsed with `int`; the data model of the specification
makes all counts non-negative integers. -/
structure Team where
  ID : Nat
  name : String
  wins : Nat
  losses : Nat
  remaining : Nat
  against : List Nat
deriving DecidableEq, Repr

/-- Method `Team.get_against` (lines 242-251): `self.against[other_team]`
on the list `against`; an out-of-range index raises `IndexError`, caught
by the bare `except` and re-raised as `ValueError`. -/
def Team.get_against (t : Team) (other_team : Nat) : Except Err Nat :=
  match t.against.get? other_team with
  | some num_games => .ok num_games
  | none => .error .valueError

/-- A node of the networkx `DiGraph` built by `create_network`. In the
source the node `"Source"` and the node `"Sink"` are strings, team nodes
are the integer team ids, and a matchup node is the string
`str(teamIDs[i]) + "_" + str(teamIDs[j])` with `i < j`; distinct pairs
with first component smaller than the second render to distinct strings,
so the matchup node is modelled by the pair itself. -/
inductive Node where
  | source
  | sink
  | team (id : Nat)
  | matchup (i j : Nat)
deriving DecidableEq, Repr

/-- The networkx `DiGraph`: a node list and a directed-edge list carrying
the `capacity` attribute. Lists keep insertion order; `add_node` and
`add_edge` are idempotent on an existing node / overwrite the attribute
of an existing edge, as in networkx. -/
structure Graph where
  nodes : List Node
  edges : List (Node × Node × Int)
deriving DecidableEq, Repr

/-- A fresh `nx.DiGraph()`. -/
def Graph.empty : Graph := ⟨[], []⟩

/-- Method `add_node` of networkx: inserts the node if it is not present. -/
def Graph.add_node (G : Graph) (v : Node) : Graph :=
  if v ∈ G.nodes then G else { G with nodes := G.nodes ++ [v] }

/-- Method `add_edge` of networkx: ensures both endpoints are nodes, then
inserts the edge with its capacity, overwriting the capacity if the edge
is already present. -/
def Graph.add_edge (G : Graph) (u v : Node) (c : Int) : Graph :=
  let Gn := (G.add_node u).add_node v
  if Gn.edges.any (fun e => e.1 == u && e.2.1 == v) then
    { Gn with edges := Gn.edges.map (fun e => if e.1 == u && e.2.1 == v then (u, v, c) else e) }
  else
    { Gn with edges := Gn.edges ++ [(u, v, c)] }

/-- The `Division` class state: the `self.teams` dictionary (an
insertion-ordered association list from team id to `Team`) and the
mutable graph `self.G`. -/
structure Division where
  teams : List (Nat × Team)
  G : Graph
deriving DecidableEq, Repr

/-- Dictionary access `self.teams[k]`: first entry with the given key,
`none` modelling a `KeyError`. -/
def lookupTeam : List (Nat × Team) → Nat → Option Team
  | [], _ => none
  | (k, t) :: rest, i => if k = i then some t else lookupTeam rest i

/-- One parsed line of the input file below the header:
`name wins losses remaining g1 ... gN`. File reading, tokenisation,
`int` parsing and the header drop `lines[1:]` are the out-of-scope
data-loading collaborator; `readDivision` is modelled on the parsed
per-team records in row order. -/
structure RawTeam where
  name : String
  wins : Nat
  losses : Nat
  remaining : Nat
  against : List Nat
deriving DecidableEq, Repr

/-- Method `Division.readDivision` (lines 30-44) together with
`__init__`: `for ID, teaminfo in enumerate(lines): self.teams[ID] =
Team(ID, ...)`, starting from an empty graph. -/
def readDivision (lines : List RawTeam) : Division :=
  { teams := lines.enum.map (fun p =>
      (p.1, { ID := p.1, name := p.2.name, wins := p.2.wins,
              losses := p.2.losses, remaining := p.2.remaining,
              against := p.2.against })),
    G := Graph.empty }

/-- Method `Division.get_team_IDs` (lines 46-53): `self.teams.keys()`. -/
def Division.get_team_IDs (d : Division) : List Nat := d.teams.map Prod.fst

/-- Method `Division.checkTeam` (lines 204-208). Never called by
`is_eliminated`. -/
def Division.checkTeam (d : Division) (team : Team) : Except Err Unit :=
  if team.ID ∈ d.get_team_IDs then .ok () else .error .valueError

/-- The `saturated_edges` dictionary built by `create_network`: it maps
the matchup node name (modelled by the underlying index pair, see `Node`)
to the number of remaining games of that pair. -/
abbrev SatEdges := List ((Nat × Nat) × Nat)

/-- First loop of `create_network` (lines 102-107): for each `team` in
`teamIDs` other than the query team, `add_node(team)` and then add the
edge `team → Sink` with capacity
`self.teams[teamID].wins + self.teams[teamID].remaining - self.teams[team].wins`;
each dictionary access can raise `KeyError`, after the node was already
added. The graph state is returned alongside the outcome, as the Python
`self.G` keeps its partial contents when an exception propagates. -/
def sinkLoop (teams : List (Nat × Team)) (teamID : Nat) :
    List Nat → Graph → Graph × Except Err Unit
  | [], G => (G, .ok ())
  | t :: rest, G =>
    if t ≠ teamID then
      let G1 := G.add_node (.team t)
      match lookupTeam teams teamID with
      | none => (G1, .error .keyError)
      | some q =>
        match lookupTeam teams t with
        | none => (G1, .error .keyError)
        | some tt =>
          let capacity : Int := (q.wins : Int) + q.remaining - tt.wins
          sinkLoop teams teamID rest (G1.add_edge (.team t) .sink capacity)
    else sinkLoop teams teamID rest G

/-- The index pairs visited by the nested loops of `create_network`
(lines 110-111): `for i in range(len(teamIDs)-1): for j in
range(i+1, len(teamIDs))`. -/
def pairIndices (len : Nat) : List (Nat × Nat) :=
  (List.range (len - 1)).flatMap
    (fun i => (List.range' (i + 1) (len - (i + 1))).map (fun j => (i, j)))

/-- Second loop of `create_network` (lines 110-120): for each index pair
`(i, j)` with `i < j`, skipped when `i == teamID or j == teamID`, the
matchup node named from `teamIDs[i]` and `teamIDs[j]` is recorded in
`saturated_edges` with the count `self.teams[i].get_against(j)` (a
dictionary access by the index `i` and a list access by the index `j`,
each of which can raise), and the three edges
`Source → matchup`, `matchup → teamIDs[i]`, `matchup → teamIDs[j]` are
added, all with that capacity. -/
def pairLoop (teams : List (Nat × Team)) (teamID : Nat) (teamIDs : List Nat) :
    List (Nat × Nat) → Graph → SatEdges → (Graph × SatEdges) × Except Err Unit
  | [], G, se => ((G, se), .ok ())
  | (i, j) :: rest, G, se =>
    if i = teamID ∨ j = teamID then pairLoop teams teamID teamIDs rest G se
    else
      let ni := teamIDs.getD i 0
      let nj := teamIDs.getD j 0
      match lookupTeam teams i with
      | none => ((G, se), .error .keyError)
      | some ti =>
        match ti.get_against j with
        | .error e => ((G, se), .error e)
        | .ok matchup_games =>
          let node : Node := .matchup ni nj
          let se1 := se ++ [((ni, nj), matchup_games)]
          let G1 := G.add_node node
          let G2 := G1.add_edge .source node matchup_games
          let G3 := G2.add_edge node (.team ni) matchup_games
          let G4 := G3.add_edge node (.team nj) matchup_games
          pairLoop teams teamID teamIDs rest G4 se1

/-- Method `Division.create_network` (lines 85-122): reset `self.G` to a
fresh graph holding `Source` and `Sink`, run the sink-edge loop and the
matchup loop, and return the `saturated_edges` dictionary. The updated
division (its mutated `self.G`) is returned together with the outcome. -/
def create_network (d : Division) (teamID : Nat) :
    Division × Except Err SatEdges :=
  let teamIDs := d.get_team_IDs
  let G0 := (Graph.empty.add_node .source).add_node .sink
  match sinkLoop d.teams teamID teamIDs G0 with
  | (G1, .error e) => ({ d with G := G1 }, .error e)
  | (G1, .ok _) =>
    match pairLoop d.teams teamID teamIDs (pairIndices teamIDs.length) G1 [] with
    | ((G2, _), .error e) => ({ d with G := G2 }, .error e)
    | ((G2, saturated_edges), .ok _) => ({ d with G := G2 }, .ok saturated_edges)

/-- The `comparing_value` computed in both solvers (lines 137-139 and
198-200): the sum of the values of the `saturated_edges` dictionary. -/
def totalCap (saturated_edges : SatEdges) : Nat :=
  saturated_edges.foldl (fun acc e => acc + e.2) 0

/-- Method `Division.network_flows` (lines 124-140). The call to the
external networkx routine `maximum_flow(self.G, "Source", "Sink")` is
modelled by the solver oracle `mfSolver`; the method returns
`comparing_value > max_flow`. -/
def network_flows (mfSolver : Graph → Int) (d : Division)
    (saturated_edges : SatEdges) : Bool :=
  let max_flow := mfSolver d.G
  let comparing_value := totalCap saturated_edges
  decide ((comparing_value : Int) > max_flow)

/-- Python 3 `round` on the rational value of the LP objective: round
half to even. -/
def pyRound (q : ℚ) : ℤ :=
  let f : ℤ := ⌊q⌋
  if q - f < 1 / 2 then f
  else if 1 / 2 < q - f then f + 1
  else if f % 2 = 0 then f else f + 1

/-- Method `Division.linear_programming` (lines 142-201). The picos
problem built from `self.G` (capacity, conservation, source and sink
constraints, maximised total flow `F`) and its cvxopt solve are the
external LP solver, modelled by the oracle `lpSolver` returning the
objective value `F`; the method returns `comparing_value > round(F)`. -/
def linear_programming (lpSolver : Graph → ℚ) (d : Division)
    (saturated_edges : SatEdges) : Bool :=
  let F := lpSolver d.G
  let comparing_value := totalCap saturated_edges
  decide ((comparing_value : Int) > pyRound F)

/-- Method `Division.is_eliminated` (lines 55-83): look up the team
(`KeyError` when absent), run the trivial pre-check over the copied
dictionary with the query team deleted, then always call
`create_network`, and only when the pre-check did not fire dispatch on
the solver name; an unrecognised name leaves `flag1` unchanged. -/
def is_eliminated (mfSolver : Graph → Int) (lpSolver : Graph → ℚ)
    (d : Division) (teamID : Nat) (solver : String) :
    Division × Except Err Bool :=
  match lookupTeam d.teams teamID with
  | none => (d, .error .keyError)
  | some team =>
    let temp := d.teams.filter (fun p => p.1 != teamID)
    let flag1 := temp.any (fun p => decide (team.wins + team.remaining < p.2.wins))
    match create_network d teamID with
    | (d1, .error e) => (d1, .error e)
    | (d1, .ok saturated_edges) =>
      if flag1 then (d1, .ok true)
      else if solver = "Network Flows" then
        (d1, .ok (network_flows mfSolver d1 saturated_edges))
      else if solver = "Linear Programming" then
        (d1, .ok (linear_programming lpSolver d1 saturated_edges))
      else (d1, .ok false)

/-- All assignments of one natural number per position, the number at
each position ranging over `0 .. bound`. Used to enumerate candidate
integer flows edge by edge. -/
def flowTuples : List Nat → List (List Nat)
  | [] => [[]]
  | b :: bs => (List.range (b + 1)).flatMap (fun x => (flowTuples bs).map (fun xs => x :: xs))

/-- Total flow leaving the node `v` under the edge-flow assignment `f`
(positionally matched with `G.edges`). -/
def outFlow (G : Graph) (f : List Nat) (v : Node) : Int :=
  ((G.edges.zip f).filter (fun p => p.1.1 == v)).foldl (fun acc p => acc + (p.2 : Int)) 0

/-- Total flow entering the node `v` under the edge-flow assignment `f`. -/
def inFlow (G : Graph) (f : List Nat) (v : Node) : Int :=
  ((G.edges.zip f).filter (fun p => p.1.2.1 == v)).foldl (fun acc p => acc + (p.2 : Int)) 0

/-- An edge-flow assignment is feasible when every edge flow is within
its capacity and every node other than `Source` and `Sink` conserves
flow. -/
def feasibleFlow (G : Graph) (f : List Nat) : Bool :=
  (G.edges.zip f).all (fun p => decide ((p.2 : Int) ≤ p.1.2.2)) &&
    G.nodes.all (fun v => v == .source || v == .sink || inFlow G f v == outFlow G f v)

/-- Net flow out of `Source`: the value of a flow. -/
def flowValue (G : Graph) (f : List Nat) : Int :=
  outFlow G f .source - inFlow G f .source

/-- Modelled from the spec: the external maximum-flow solver (the
networkx `maximum_flow` call of line 135, absent from this repository).
Its contract in the specification is that the returned value equals the
true maximum Source-to-Sink flow of the network; this reference
realisation computes that value exactly, as the largest value of any
feasible integer flow (the enumeration is exhaustive because every edge
flow is bounded by its capacity). The specification further states that
the LP optimum of the external cvxopt solve equals this same value after
rounding, which is taken as the LP oracle contract. -/
def maxFlowValue (G : Graph) : Int :=
  (((flowTuples (G.edges.map (fun e => e.2.2.toNat))).filter
      (fun f => feasibleFlow G f)).map (fun f => flowValue G f)).foldl max 0

/-- Reference oracle for the networkx maximum-flow call, satisfying the
contract of the specification exactly. -/
def mfExact : Graph → Int := fun G => maxFlowValue G

/-- Reference oracle for the LP objective value returned by the cvxopt
solve: per the specification it equals the integer maximum-flow value
(its LP relaxation is integral on this network), so the exact value is
the cast of `maxFlowValue`. -/
def lpExact : Graph → ℚ := fun G => ((maxFlowValue G : Int) : ℚ)

/-- Dummy maximum-flow oracle used to show that a branch never consults
the solver. -/
def mfZero : Graph → Int := fun _ => 0

/-- Dummy LP oracle used to show that a branch never consults the
solver. -/
def lpZero : Graph → ℚ := fun _ => 0

/-- The index pairs the matchup loop actually processes: the visited
pairs minus those skipped by `i == teamID or j == teamID`. -/
def matchPairs (len teamID : Nat) : List (Nat × Nat) :=
  (pairIndices len).filter (fun p => !(p.1 == teamID || p.2 == teamID))

/-- The remaining-game count the matchup loop reads for the pair
`(i, j)`: the `against` entry `j` of the team found under the key `i`
(zero placeholder when the lookups cannot succeed; the theorems only use
it where they do). -/
def gval (teams : List (Nat × Team)) (i j : Nat) : Nat :=
  match lookupTeam teams i with
  | some t => t.against.getD j 0
  | none => 0

/-- The win count of the team found under the key `t` (zero placeholder
when absent). -/
def wval (teams : List (Nat × Team)) (t : Nat) : Nat :=
  match lookupTeam teams t with
  | some tt => tt.wins
  | none => 0

/-- Example division of the specification: two teams, each with 3 wins
and 1 remaining game against the other; neither is eliminated. -/
def exA : Division := readDivision
  [ { name := "A", wins := 3, losses := 0, remaining := 1, against := [0, 1] },
    { name := "B", wins := 3, losses := 0, remaining := 1, against := [1, 0] } ]

/-- Example division where the query team 0 is trivially eliminated:
team 1 already has more wins than team 0 can ever reach. -/
def exT : Division := readDivision
  [ { name := "A", wins := 0, losses := 0, remaining := 0, against := [0, 0] },
    { name := "B", wins := 5, losses := 0, remaining := 0, against := [0, 0] } ]

/-- Example four-team division: querying team 3 exercises the full
matchup enumeration over teams 0, 1, 2. -/
def exS : Division := readDivision
  [ { name := "A", wins := 4, losses := 0, remaining := 2, against := [0, 1, 1, 0] },
    { name := "B", wins := 4, losses := 0, remaining := 2, against := [1, 0, 1, 0] },
    { name := "C", wins := 4, losses := 0, remaining := 2, against := [1, 1, 0, 0] },
    { name := "D", wins := 2, losses := 0, remaining := 1, against := [0, 0, 0, 0] } ]

/-- The first record of the division of `exT`. -/
def exTTeamA : Team :=
  { ID := 0, name := "A", wins := 0, losses := 0, remaining := 0, against := [0, 0] }

/-- The second record of the division of `exT`. -/
def exTTeamB : Team :=
  { ID := 1, name := "B", wins := 5, losses := 0, remaining := 0, against := [0, 0] }

/-- Example four-team division eliminated through the network path
(classic saturation case): team 3 can still reach 4 wins, no other team
exceeds that, yet the three remaining games among teams 0, 1, 2 cannot
all be absorbed (total capacity 3, maximum flow 0). -/
def exE : Division := readDivision
  [ { name := "A", wins := 4, losses := 0, remaining := 2, against := [0, 1, 1, 0] },
    { name := "B", wins := 4, losses := 0, remaining := 2, against := [1, 0, 1, 0] },
    { name := "C", wins := 4, losses := 0, remaining := 2, against := [1, 1, 0, 0] },
    { name := "D", wins := 2, losses := 0, remaining := 2, against := [0, 0, 0, 0] } ]


deriving instance DecidableEq for Except

theorem totalCap_eq_sum (se : SatEdges) : totalCap se = (se.map Prod.snd).sum := by
  have h : ∀ (l : SatEdges) (acc : Nat),
      l.foldl (fun a e => a + e.2) acc = acc + (l.map Prod.snd).sum := by
    intro l
    induction l with
    | nil => intro acc; simp
    | cons x xs ih => intro acc; simp [ih, Nat.add_assoc]
  simpa using h se 0

theorem pyRound_intCast (n : ℤ) : pyRound ((n : ℤ) : ℚ) = n := by
  simp [pyRound]

/-- C6: for every roster and every team id not present in the roster,
`is_eliminated` fails with the unknown-team error (the `KeyError` of the
dictionary access `self.teams[teamID]` on line 67), and the division —
in particular its graph — is returned unchanged: the error is raised
before any network construction takes place. -/
theorem is_eliminated_unknown_team (mfSolver : Graph → Int) (lpSolver : Graph → ℚ)
    (d : Division) (teamID : Nat) (solver : String)
    (h : lookupTeam d.teams teamID = none) :
    is_eliminated mfSolver lpSolver d teamID solver = (d, .error .keyError) := by
  unfold is_eliminated
  rw [h]

theorem is_eliminated_unknown_team_witness :
    lookupTeam exA.teams 7 = none
      ∧ is_eliminated mfZero lpZero exA 7 "Network Flows" = (exA, .error .keyError) :=
  ⟨by decide, is_eliminated_unknown_team mfZero lpZero exA 7 "Network Flows" (by decide)⟩

/-- C9: querying the remaining-game count against an opponent id that
has no entry in the against data of the team raises the `ValueError` of
`get_against`, rather than returning zero. -/
theorem get_against_unlisted (t : Team) (j : Nat) (h : t.against.length ≤ j) :
    t.get_against j = .error .valueError := by
  unfold Team.get_against
  rw [List.get?_eq_none.mpr h]

theorem get_against_unlisted_witness :
    ({ ID := 0, name := "A", wins := 1, losses := 0, remaining := 1, against := [0, 1] } : Team).against.length ≤ 5
      ∧ ({ ID := 0, name := "A", wins := 1, losses := 0, remaining := 1, against := [0, 1] } : Team).get_against 5 = .error .valueError :=
  ⟨by decide, get_against_unlisted _ 5 (by decide)⟩

/-- C10: every division constructed by `readDivision` has team ids that
are exactly the contiguous integers `0 .. n-1` in row order, each record
stored under its own `ID`; consequently the ordered key list used by
`create_network` is literally `range n`, so positional indexing into it
coincides with indexing by team-id value. -/
theorem readDivision_canonical_ids (lines : List RawTeam) :
    (readDivision lines).teams.map Prod.fst = List.range lines.length
      ∧ (readDivision lines).teams.map (fun p => p.2.ID) = List.range lines.length
      ∧ (readDivision lines).get_team_IDs = List.range lines.length := by
  unfold readDivision Division.get_team_IDs
  refine ⟨?_, ?_, ?_⟩ <;>
    simp [List.map_map, Function.comp_def, List.enum_map_fst]

/-- C8: an elimination query never mutates the roster: the `teams`
mapping (hence every record id, name, wins, losses, remaining and
against data) is identical before and after `is_eliminated`, and after
`create_network`, for every division, team id, method string and solver
oracle; only the graph `self.G` is rebuilt. -/
theorem query_preserves_roster (mfSolver : Graph → Int) (lpSolver : Graph → ℚ)
    (d : Division) (teamID : Nat) (solver : String) :
    (is_eliminated mfSolver lpSolver d teamID solver).1.teams = d.teams
      ∧ (create_network d teamID).1.teams = d.teams := by
  have hc : (create_network d teamID).1.teams = d.teams := by
    simp only [create_network]
    split
    · rfl
    · split <;> rfl
  refine ⟨?_, hc⟩
  rcases hl : lookupTeam d.teams teamID with _ | team
  · simp [is_eliminated, hl]
  · rcases hcn : create_network d teamID with ⟨d1, r⟩
    have hd1 : d1.teams = d.teams := by
      have := hc
      rw [hcn] at this
      exact this
    cases r with
    | error e => simp [is_eliminated, hl, hcn, hd1]
    | ok se =>
      simp only [is_eliminated, hl, hcn]
      split
      · exact hd1
      · split
        · exact hd1
        · split <;> exact hd1


/-- C1: for every roster and every team id, the elimination verdict
computed with the max-flow solver equals the verdict computed with the
linear-programming solver, given the solver contracts stated by the
specification: the networkx oracle returns the true maximum flow
`maxFlowValue`, and the LP objective value rounds to that same integer
maximum-flow value (the integrality of the LP relaxation asserted by the
specification). Both error paths and both verdict paths agree. -/
theorem cross_solver_agreement (mfSolver : Graph → Int) (lpSolver : Graph → ℚ)
    (hmf : ∀ G, mfSolver G = maxFlowValue G)
    (hlp : ∀ G, pyRound (lpSolver G) = maxFlowValue G)
    (d : Division) (teamID : Nat) :
    is_eliminated mfSolver lpSolver d teamID "Network Flows"
      = is_eliminated mfSolver lpSolver d teamID "Linear Programming" := by
  rcases hl : lookupTeam d.teams teamID with _ | team
  · simp [is_eliminated, hl]
  · rcases hcn : create_network d teamID with ⟨d1, r⟩
    cases r with
    | error e => simp [is_eliminated, hl, hcn]
    | ok se =>
      simp only [is_eliminated, hl, hcn]
      split
      · rfl
      · simp [network_flows, linear_programming, hmf, hlp]

theorem cross_solver_agreement_witness :
    (∀ G, mfExact G = maxFlowValue G)
      ∧ (∀ G, pyRound (lpExact G) = maxFlowValue G)
      ∧ is_eliminated mfExact lpExact exE 3 "Network Flows"
          = is_eliminated mfExact lpExact exE 3 "Linear Programming" :=
  ⟨fun _ => rfl, fun G => pyRound_intCast (maxFlowValue G),
    cross_solver_agreement mfExact lpExact (fun _ => rfl)
      (fun G => pyRound_intCast (maxFlowValue G)) exE 3⟩

/-- C2: for every constructed network, the max-flow solver declares the
queried team eliminated exactly when the computed maximum
Source-to-Sink flow is strictly below `totalRemainingCapacity`, the sum
of the `saturated_edges` values. -/
theorem network_flows_verdict (mfSolver : Graph → Int)
    (hmf : ∀ G, mfSolver G = maxFlowValue G)
    (d : Division) (saturated_edges : SatEdges) :
    network_flows mfSolver d saturated_edges = true
      ↔ maxFlowValue d.G < (totalCap saturated_edges : Int) := by
  simp [network_flows, hmf]

theorem network_flows_verdict_witness :
    (∀ G, mfExact G = maxFlowValue G)
      ∧ (network_flows mfExact (create_network exE 3).1 [((0, 1), 1), ((0, 2), 1), ((1, 2), 1)] = true
          ↔ maxFlowValue (create_network exE 3).1.G
              < (totalCap [((0, 1), 1), ((0, 2), 1), ((1, 2), 1)] : Int)) :=
  ⟨fun _ => rfl,
    network_flows_verdict mfExact (fun _ => rfl) (create_network exE 3).1
      [((0, 1), 1), ((0, 2), 1), ((1, 2), 1)]⟩

/-- C3 counterexample: on the division `exT`, team 1 already has more
wins than team 0 can reach, and `is_eliminated` does return `true` via
the trivial pre-check — but the network IS constructed: the graph of
the returned division has a non-empty edge list, refuting the claim
that no network construction takes place. -/
theorem trivial_check_builds_network_cex :
    (is_eliminated mfZero lpZero exT 0 "Network Flows").2 = Except.ok true
      ∧ (is_eliminated mfZero lpZero exT 0 "Network Flows").1.G.edges ≠ [] := by
  decide

theorem is_eliminated_of_trivial (mfSolver : Graph → Int) (lpSolver : Graph → ℚ)
    (d : Division) (teamID : Nat) (team : Team) (solver : String)
    (d1 : Division) (se : SatEdges)
    (hteam : lookupTeam d.teams teamID = some team)
    (htriv : ∃ p ∈ d.teams, p.1 ≠ teamID ∧ team.wins + team.remaining < p.2.wins)
    (hnet : create_network d teamID = (d1, Except.ok se)) :
    is_eliminated mfSolver lpSolver d teamID solver = (d1, Except.ok true) := by
  simp only [is_eliminated, hteam, hnet]
  have hflag : ((List.filter (fun p => p.1 != teamID) d.teams).any
      (fun p => decide (team.wins + team.remaining < p.2.wins))) = true := by
    rcases htriv with ⟨p, hp, hne, hw⟩
    simp only [List.any_eq_true, List.mem_filter]
    exact ⟨p, ⟨hp, by simpa using hne⟩, by simpa using hw⟩
  rw [hflag]
  simp

/-- C3 (amended): if some other team already has strictly more wins
than the query team can reach, `is_eliminated` returns `true` with no
solver invocation — the result is the same for every solver oracle pair
and every method string — but only after `create_network` has still
been called: the returned division is the one produced by the network
construction. -/
theorem trivial_check_skips_solver (mfSolver : Graph → Int) (lpSolver : Graph → ℚ)
    (d : Division) (teamID : Nat) (team : Team) (solver : String)
    (d1 : Division) (se : SatEdges)
    (hteam : lookupTeam d.teams teamID = some team)
    (htriv : ∃ p ∈ d.teams, p.1 ≠ teamID ∧ team.wins + team.remaining < p.2.wins)
    (hnet : create_network d teamID = (d1, Except.ok se)) :
    is_eliminated mfSolver lpSolver d teamID solver = (d1, Except.ok true) :=
  is_eliminated_of_trivial mfSolver lpSolver d teamID team solver d1 se hteam htriv hnet

theorem trivial_check_skips_solver_witness :
    lookupTeam exT.teams 0
        = some { ID := 0, name := "A", wins := 0, losses := 0, remaining := 0, against := [0, 0] }
      ∧ (∃ p ∈ exT.teams, p.1 ≠ 0
          ∧ ({ ID := 0, name := "A", wins := 0, losses := 0, remaining := 0, against := [0, 0] } : Team).wins
              + ({ ID := 0, name := "A", wins := 0, losses := 0, remaining := 0, against := [0, 0] } : Team).remaining
              < p.2.wins)
      ∧ create_network exT 0 = ((create_network exT 0).1, Except.ok [])
      ∧ is_eliminated mfZero lpZero exT 0 "xyz" = ((create_network exT 0).1, Except.ok true) :=
  ⟨by decide, by decide, by decide,
    trivial_check_skips_solver mfZero lpZero exT 0
      { ID := 0, name := "A", wins := 0, losses := 0, remaining := 0, against := [0, 0] }
      "xyz" (create_network exT 0).1 [] (by decide) (by decide) (by decide)⟩

/-- C5 counterexample: on the division `exA` with the unrecognized
method string "foo", `is_eliminated` returns the boolean `false`
instead of failing with an unsupported-solver error. -/
theorem unsupported_solver_no_error_cex :
    (is_eliminated mfZero lpZero exA 0 "foo").2 = Except.ok false := by
  decide

/-- C5 (amended): a method string that is not one of the two recognized
solver identifiers does not fail: when the trivial pre-check does not
fire, `is_eliminated` silently returns `false` — the initial `flag1` —
without invoking any solver (the missing else branch of lines 78-81). -/
theorem unsupported_solver_silent_false (mfSolver : Graph → Int) (lpSolver : Graph → ℚ)
    (d : Division) (teamID : Nat) (team : Team) (solver : String)
    (d1 : Division) (se : SatEdges)
    (hs1 : solver ≠ "Network Flows") (hs2 : solver ≠ "Linear Programming")
    (hteam : lookupTeam d.teams teamID = some team)
    (htriv : ∀ p ∈ d.teams, p.1 ≠ teamID → ¬(team.wins + team.remaining < p.2.wins))
    (hnet : create_network d teamID = (d1, Except.ok se)) :
    is_eliminated mfSolver lpSolver d teamID solver = (d1, Except.ok false) := by
  simp only [is_eliminated, hteam, hnet]
  have hflag : ((List.filter (fun p => p.1 != teamID) d.teams).any
      (fun p => decide (team.wins + team.remaining < p.2.wins))) = false := by
    simp only [List.any_eq_false, List.mem_filter]
    rintro p ⟨hp, hne⟩
    exact by simpa using htriv p hp (by simpa using hne)
  rw [hflag]
  simp [hs1, hs2]

theorem unsupported_solver_silent_false_witness :
    ("Gurobi" : String) ≠ "Network Flows"
      ∧ ("Gurobi" : String) ≠ "Linear Programming"
      ∧ lookupTeam exA.teams 0
          = some { ID := 0, name := "A", wins := 3, losses := 0, remaining := 1, against := [0, 1] }
      ∧ is_eliminated mfZero lpZero exA 0 "Gurobi" = ((create_network exA 0).1, Except.ok false) :=
  ⟨by decide, by decide, by decide,
    unsupported_solver_silent_false mfZero lpZero exA 0
      { ID := 0, name := "A", wins := 3, losses := 0, remaining := 1, against := [0, 1] }
      "Gurobi" (create_network exA 0).1 []
      (by decide) (by decide) (by decide) (by decide) (by decide)⟩


theorem add_node_edges (G : Graph) (v : Node) : (G.add_node v).edges = G.edges := by
  unfold Graph.add_node
  split <;> rfl

theorem add_edge_eq_append (G : Graph) (u v : Node) (c : Int)
    (h : ∀ e ∈ G.edges, ¬(e.1 = u ∧ e.2.1 = v)) :
    (G.add_edge u v c).edges = G.edges ++ [(u, v, c)] := by
  have hany : (G.edges.any (fun e => e.1 == u && e.2.1 == v)) = false := by
    simp only [List.any_eq_false, Bool.and_eq_true, beq_iff_eq, not_and]
    intro e he h1 h2
    exact h e he ⟨h1, h2⟩
  simp [Graph.add_edge, add_node_edges, hany]

theorem mem_add_edge (G : Graph) (u v : Node) (c : Int) (e : Node × Node × Int)
    (he : e ∈ G.edges) (hne : ¬(e.1 = u ∧ e.2.1 = v)) :
    e ∈ (G.add_edge u v c).edges := by
  have hb : (e.1 == u && e.2.1 == v) = false := by
    by_cases h1 : e.1 = u
    · have h2 : ¬(e.2.1 = v) := fun h2 => hne ⟨h1, h2⟩
      simp [h1, h2]
    · simp [h1]
  simp only [Graph.add_edge, add_node_edges]
  split
  · refine List.mem_map.mpr ⟨e, he, ?_⟩
    have hni : ¬((e.1 == u && e.2.1 == v) = true) := by rw [hb]; simp
    rw [if_neg hni]
  · exact List.mem_append_left _ he

theorem lookupTeam_mem {teams : List (Nat × Team)} {i : Nat} {t : Team}
    (h : lookupTeam teams i = some t) : (i, t) ∈ teams := by
  induction teams with
  | nil => cases h
  | cons x xs ih =>
    rcases x with ⟨k, tt⟩
    simp only [lookupTeam] at h
    split at h
    · rename_i hk
      obtain rfl := Option.some.inj h
      subst hk
      exact List.mem_cons_self _ _
    · exact List.mem_cons_of_mem _ (ih h)

theorem lookupTeam_of_mem_keys {teams : List (Nat × Team)} {i : Nat}
    (h : i ∈ teams.map Prod.fst) : ∃ t, lookupTeam teams i = some t := by
  induction teams with
  | nil => simp at h
  | cons x xs ih =>
    rcases x with ⟨k, tt⟩
    rw [List.map_cons] at h
    by_cases hk : k = i
    · exact ⟨tt, by simp [lookupTeam, hk]⟩
    · have hx : i ∈ xs.map Prod.fst := by
        rcases List.mem_cons.mp h with h1 | h1
        · exact absurd h1.symm hk
        · exact h1
      rcases ih hx with ⟨t, ht⟩
      exact ⟨t, by simp [lookupTeam, hk, ht]⟩

theorem lookupTeam_of_mem_nodup {teams : List (Nat × Team)} {i : Nat} {t : Team}
    (hnd : (teams.map Prod.fst).Nodup) (h : (i, t) ∈ teams) :
    lookupTeam teams i = some t := by
  induction teams with
  | nil => simp at h
  | cons x xs ih =>
    rcases x with ⟨k, tt⟩
    rw [List.map_cons] at hnd
    have hnd1 := List.nodup_cons.mp hnd
    rcases List.mem_cons.mp h with heq | hmem
    · cases heq
      simp [lookupTeam]
    · have hk : k ≠ i := by
        intro hki
        subst hki
        exact hnd1.1 (List.mem_map.mpr ⟨(k, t), hmem, rfl⟩)
      simp only [lookupTeam, if_neg hk]
      exact ih hnd1.2 hmem

theorem mem_pairIndices {n i j : Nat} : (i, j) ∈ pairIndices n ↔ i < j ∧ j < n := by
  simp only [pairIndices, List.mem_flatMap, List.mem_map, List.mem_range, List.mem_range'_1]
  constructor
  · rintro ⟨a, ha, b, ⟨hb1, hb2⟩, heq⟩
    obtain ⟨rfl, rfl⟩ := Prod.mk.injEq _ _ _ _ ▸ heq
    omega
  · rintro ⟨hij, hjn⟩
    exact ⟨i, by omega, j, by omega, rfl⟩

theorem pairIndices_nodup (n : Nat) : (pairIndices n).Nodup := by
  unfold pairIndices
  refine List.nodup_flatMap.mpr ⟨?_, ?_⟩
  · intro i _
    exact (List.nodup_range' _ _).map (fun a b hab => by
      injection hab with h1 h2)
  · refine (List.nodup_range _).imp ?_
    intro a b hab x hxa hxb
    rcases List.mem_map.mp hxa with ⟨ja, _, rfl⟩
    rcases List.mem_map.mp hxb with ⟨jb, _, heq⟩
    injection heq with h1 h2
    exact hab h1.symm

theorem range_getD {n i : Nat} (h : i < n) : (List.range n).getD i 0 = i := by
  simp [List.getD_eq_getElem?_getD, List.getElem?_range h]

theorem get_against_ok {t : Team} {j : Nat} (h : j < t.against.length) :
    t.get_against j = .ok (t.against.getD j 0) := by
  unfold Team.get_against
  rcases hg : t.against.get? j with _ | g
  · rw [List.get?_eq_none] at hg
    omega
  · rw [List.get?_eq_getElem?] at hg
    simp [List.getD_eq_getElem?_getD, hg]


theorem sinkLoop_spec (teams : List (Nat × Team)) (tid : Nat) (q : Team)
    (hq : lookupTeam teams tid = some q) :
    ∀ (ts : List Nat) (G : Graph),
    (∀ t ∈ ts, t ≠ tid → ∃ tt, lookupTeam teams t = some tt) →
    List.Pairwise (fun a b => a ≠ b) ts →
    (∀ t ∈ ts, ∀ e ∈ G.edges, ¬(e.1 = Node.team t ∧ e.2.1 = Node.sink)) →
    ∃ G', sinkLoop teams tid ts G = (G', .ok ())
      ∧ G'.edges = G.edges ++ (ts.filter (fun t => t != tid)).map
          (fun t => (Node.team t, Node.sink, (q.wins : Int) + q.remaining - wval teams t)) := by
  intro ts
  induction ts with
  | nil =>
    intro G hts hpw hfresh
    exact ⟨G, rfl, by simp⟩
  | cons t rest ih =>
    intro G hts hpw hfresh
    by_cases htid : t = tid
    · simp only [sinkLoop]
      rw [if_neg (fun hcon => hcon htid)]
      obtain ⟨G', h1, h2⟩ := ih G
        (fun t' ht' => hts t' (List.mem_cons_of_mem _ ht'))
        (List.pairwise_cons.mp hpw).2
        (fun t' ht' => hfresh t' (List.mem_cons_of_mem _ ht'))
      refine ⟨G', h1, ?_⟩
      rw [h2]
      have hf : (t != tid) = false := by simp [htid]
      simp [List.filter_cons, hf]
    · obtain ⟨tt, htt⟩ := hts t (List.mem_cons_self _ _) htid
      have hw : wval teams t = tt.wins := by simp [wval, htt]
      simp only [sinkLoop]
      rw [if_pos htid, hq, htt]
      have hG2 : ((G.add_node (Node.team t)).add_edge (Node.team t) Node.sink
            ((q.wins : Int) + q.remaining - tt.wins)).edges
          = G.edges ++ [(Node.team t, Node.sink, (q.wins : Int) + q.remaining - tt.wins)] := by
        rw [add_edge_eq_append]
        · rw [add_node_edges]
        · intro e he
          rw [add_node_edges] at he
          exact hfresh t (List.mem_cons_self _ _) e he
      obtain ⟨G', h1, h2⟩ := ih
        ((G.add_node (Node.team t)).add_edge (Node.team t) Node.sink
          ((q.wins : Int) + q.remaining - tt.wins))
        (fun t' ht' => hts t' (List.mem_cons_of_mem _ ht'))
        (List.pairwise_cons.mp hpw).2
        (by
          intro t' ht' e he
          rw [hG2] at he
          rcases List.mem_append.mp he with hold | hnew
          · exact hfresh t' (List.mem_cons_of_mem _ ht') e hold
          · rintro ⟨he1, he2⟩
            rcases List.mem_singleton.mp hnew with rfl
            have : t = t' := by
              injection he1 with h3
            exact (List.pairwise_cons.mp hpw).1 t' ht' this)
      refine ⟨G', h1, ?_⟩
      rw [h2, hG2]
      have hf : (t != tid) = true := by simp [htid]
      simp [List.filter_cons, hf, hw]

theorem pairLoop_spec (teams : List (Nat × Team)) (tid n : Nat) :
    ∀ (ps : List (Nat × Nat)) (G : Graph) (se : SatEdges),
    (∀ p ∈ ps, p.1 < n ∧ p.2 < n ∧ p.1 ≠ p.2) →
    (∀ p ∈ ps, ¬(p.1 = tid ∨ p.2 = tid) →
      ∃ t, lookupTeam teams p.1 = some t ∧ p.2 < t.against.length) →
    List.Pairwise (fun a b => a ≠ b) ps →
    (∀ p ∈ ps, ∀ e ∈ G.edges,
      e.1 ≠ Node.matchup p.1 p.2 ∧ e.2.1 ≠ Node.matchup p.1 p.2) →
    ∃ G', pairLoop teams tid (List.range n) ps G se
        = ((G', se ++ (ps.filter (fun p => !(p.1 == tid || p.2 == tid))).map
              (fun p => (p, gval teams p.1 p.2))), .ok ())
      ∧ G'.edges = G.edges ++ (ps.filter (fun p => !(p.1 == tid || p.2 == tid))).flatMap
          (fun p => [(Node.source, Node.matchup p.1 p.2, (gval teams p.1 p.2 : Int)),
                     (Node.matchup p.1 p.2, Node.team p.1, (gval teams p.1 p.2 : Int)),
                     (Node.matchup p.1 p.2, Node.team p.2, (gval teams p.1 p.2 : Int))]) := by
  intro ps
  induction ps with
  | nil =>
    intro G se hbound hsucc hpw hfresh
    exact ⟨G, by simp [pairLoop], by simp⟩
  | cons p rest ih =>
    intro G se hbound hsucc hpw hfresh
    rcases p with ⟨i, j⟩
    by_cases hskip : i = tid ∨ j = tid
    · have hfc : ((i, j) :: rest).filter (fun p => !(p.1 == tid || p.2 == tid))
          = rest.filter (fun p => !(p.1 == tid || p.2 == tid)) := by
        rw [List.filter_cons]
        have hf : (!((i, j).1 == tid || (i, j).2 == tid)) = false := by
          rcases hskip with h | h <;> simp [h]
        rw [hf]
        simp
      simp only [pairLoop]
      rw [if_pos hskip]
      obtain ⟨G', h1, h2⟩ := ih G se
        (fun p' hp' => hbound p' (List.mem_cons_of_mem _ hp'))
        (fun p' hp' => hsucc p' (List.mem_cons_of_mem _ hp'))
        (List.pairwise_cons.mp hpw).2
        (fun p' hp' => hfresh p' (List.mem_cons_of_mem _ hp'))
      refine ⟨G', ?_, ?_⟩
      · rw [hfc]
        exact h1
      · rw [hfc]
        exact h2
    · obtain ⟨hi, hj, hij⟩ := hbound (i, j) (List.mem_cons_self _ _)
      obtain ⟨t, ht, hlt⟩ := hsucc (i, j) (List.mem_cons_self _ _) hskip
      have hgi : (List.range n).getD i 0 = i := range_getD hi
      have hgj : (List.range n).getD j 0 = j := range_getD hj
      have hga : t.get_against j = .ok (t.against.getD j 0) := get_against_ok hlt
      have hgv : gval teams i j = t.against.getD j 0 := by simp [gval, ht]
      have hfc : ((i, j) :: rest).filter (fun p => !(p.1 == tid || p.2 == tid))
          = (i, j) :: rest.filter (fun p => !(p.1 == tid || p.2 == tid)) := by
        rw [List.filter_cons]
        have hf : (!((i, j).1 == tid || (i, j).2 == tid)) = true := by
          push_neg at hskip
          simp [hskip.1, hskip.2]
        rw [hf]
        simp
      have hfr0 := hfresh (i, j) (List.mem_cons_self _ _)
      have hG2 : ((G.add_node (Node.matchup i j)).add_edge Node.source (Node.matchup i j)
            ((t.against.getD j 0 : Nat) : Int)).edges
          = G.edges ++ [(Node.source, Node.matchup i j, ((t.against.getD j 0 : Nat) : Int))] := by
        rw [add_edge_eq_append]
        · rw [add_node_edges]
        · intro e he
          rw [add_node_edges] at he
          rintro ⟨he1, he2⟩
          exact (hfr0 e he).2 he2
      have hG3 : (((G.add_node (Node.matchup i j)).add_edge Node.source (Node.matchup i j)
            ((t.against.getD j 0 : Nat) : Int)).add_edge (Node.matchup i j) (Node.team i)
            ((t.against.getD j 0 : Nat) : Int)).edges
          = G.edges ++ [(Node.source, Node.matchup i j, ((t.against.getD j 0 : Nat) : Int)),
              (Node.matchup i j, Node.team i, ((t.against.getD j 0 : Nat) : Int))] := by
        rw [add_edge_eq_append]
        · rw [hG2]
          simp
        · intro e he
          rw [hG2] at he
          rcases List.mem_append.mp he with hold | hnew
          · rintro ⟨he1, he2⟩
            exact (hfr0 e hold).1 he1
          · rcases List.mem_singleton.mp hnew with rfl
            rintro ⟨he1, he2⟩
            exact Node.noConfusion he1
      have hG4 : ((((G.add_node (Node.matchup i j)).add_edge Node.source (Node.matchup i j)
            ((t.against.getD j 0 : Nat) : Int)).add_edge (Node.matchup i j) (Node.team i)
            ((t.against.getD j 0 : Nat) : Int)).add_edge (Node.matchup i j) (Node.team j)
            ((t.against.getD j 0 : Nat) : Int)).edges
          = G.edges ++ [(Node.source, Node.matchup i j, ((t.against.getD j 0 : Nat) : Int)),
              (Node.matchup i j, Node.team i, ((t.against.getD j 0 : Nat) : Int)),
              (Node.matchup i j, Node.team j, ((t.against.getD j 0 : Nat) : Int))] := by
        rw [add_edge_eq_append]
        · rw [hG3]
          simp
        · intro e he
          rw [hG3] at he
          rcases List.mem_append.mp he with hold | hnew
          · rintro ⟨he1, he2⟩
            exact (hfr0 e hold).1 he1
          · rcases List.mem_cons.mp hnew with rfl | hnew2
            · rintro ⟨he1, he2⟩
              exact Node.noConfusion he1
            · rcases List.mem_singleton.mp hnew2 with rfl
              rintro ⟨he1, he2⟩
              injection he2 with h3
              exact hij h3
      simp only [pairLoop, if_neg hskip, hgi, hgj, ht, hga]
      obtain ⟨G', h1, h2⟩ := ih
        ((((G.add_node (Node.matchup i j)).add_edge Node.source (Node.matchup i j)
          ((t.against.getD j 0 : Nat) : Int)).add_edge (Node.matchup i j) (Node.team i)
          ((t.against.getD j 0 : Nat) : Int)).add_edge (Node.matchup i j) (Node.team j)
          ((t.against.getD j 0 : Nat) : Int))
        (se ++ [((i, j), t.against.getD j 0)])
        (fun p' hp' => hbound p' (List.mem_cons_of_mem _ hp'))
        (fun p' hp' => hsucc p' (List.mem_cons_of_mem _ hp'))
        (List.pairwise_cons.mp hpw).2
        (by
          intro p' hp' e he
          have hne : Node.matchup i j ≠ Node.matchup p'.1 p'.2 := by
            intro hcon
            injection hcon with hc1 hc2
            exact (List.pairwise_cons.mp hpw).1 p' hp' (by
              rcases p' with ⟨a, b⟩
              simp only at hc1 hc2
              rw [hc1, hc2])
          rw [hG4] at he
          rcases List.mem_append.mp he with hold | hnew
          · exact hfresh p' (List.mem_cons_of_mem _ hp') e hold
          · rcases List.mem_cons.mp hnew with rfl | hnew2
            · exact ⟨by simp, hne⟩
            · rcases List.mem_cons.mp hnew2 with rfl | hnew3
              · exact ⟨hne, by simp⟩
              · rcases List.mem_singleton.mp hnew3 with rfl
                exact ⟨hne, by simp⟩)
      refine ⟨G', ?_, ?_⟩
      · have heq : se ++ (((i, j) :: rest).filter (fun p => !(p.1 == tid || p.2 == tid))).map
              (fun p => (p, gval teams p.1 p.2))
            = (se ++ [((i, j), t.against.getD j 0)])
              ++ (rest.filter (fun p => !(p.1 == tid || p.2 == tid))).map
                  (fun p => (p, gval teams p.1 p.2)) := by
          rw [hfc]
          simp [hgv]
        rw [heq]
        exact h1
      · rw [h2, hG4, hfc]
        simp [hgv]


theorem create_network_canonical (d : Division) (tid : Nat)
    (hids : d.teams.map Prod.fst = List.range d.teams.length)
    (htid : tid < d.teams.length)
    (hlen : ∀ p ∈ d.teams, d.teams.length ≤ p.2.against.length) :
    ∃ q G2, lookupTeam d.teams tid = some q
      ∧ create_network d tid
          = ({ teams := d.teams, G := G2 },
             .ok ((matchPairs d.teams.length tid).map (fun p => (p, gval d.teams p.1 p.2))))
      ∧ G2.edges
          = ((List.range d.teams.length).filter (fun x => x != tid)).map
              (fun x => (Node.team x, Node.sink, (q.wins : Int) + q.remaining - wval d.teams x))
            ++ (matchPairs d.teams.length tid).flatMap
              (fun p => [(Node.source, Node.matchup p.1 p.2, (gval d.teams p.1 p.2 : Int)),
                         (Node.matchup p.1 p.2, Node.team p.1, (gval d.teams p.1 p.2 : Int)),
                         (Node.matchup p.1 p.2, Node.team p.2, (gval d.teams p.1 p.2 : Int))]) := by
  have hkeys : d.get_team_IDs = List.range d.teams.length := hids
  obtain ⟨q, hq⟩ := lookupTeam_of_mem_keys (i := tid)
    (by rw [hids]; exact List.mem_range.mpr htid)
  have hG0 : ((Graph.empty.add_node Node.source).add_node Node.sink).edges = [] := by
    rw [add_node_edges, add_node_edges]
    rfl
  obtain ⟨G1, hs1, hs2⟩ := sinkLoop_spec d.teams tid q hq (List.range d.teams.length)
    ((Graph.empty.add_node Node.source).add_node Node.sink)
    (fun t ht htn => lookupTeam_of_mem_keys (by rw [hids]; exact ht))
    (List.nodup_range _)
    (by
      intro t ht e he
      rw [hG0] at he
      simp at he)
  have hG1e : G1.edges = ((List.range d.teams.length).filter (fun x => x != tid)).map
      (fun x => (Node.team x, Node.sink, (q.wins : Int) + q.remaining - wval d.teams x)) := by
    rw [hs2, hG0]
    simp
  obtain ⟨G2, hp1, hp2⟩ := pairLoop_spec d.teams tid d.teams.length
    (pairIndices d.teams.length) G1 []
    (by
      intro p hp
      rcases p with ⟨i, j⟩
      obtain ⟨hij, hjn⟩ := mem_pairIndices.mp hp
      exact ⟨by omega, by omega, by omega⟩)
    (by
      intro p hp hpt
      rcases p with ⟨i, j⟩
      obtain ⟨hij, hjn⟩ := mem_pairIndices.mp hp
      obtain ⟨t, ht⟩ := lookupTeam_of_mem_keys (i := i)
        (by rw [hids]; exact List.mem_range.mpr (by omega))
      refine ⟨t, ht, ?_⟩
      have h2 : d.teams.length ≤ t.against.length := hlen (i, t) (lookupTeam_mem ht)
      omega)
    (pairIndices_nodup _)
    (by
      intro p hp e he
      rw [hG1e] at he
      rcases List.mem_map.mp he with ⟨x, hx, rfl⟩
      exact ⟨Node.noConfusion, Node.noConfusion⟩)
  refine ⟨q, G2, hq, ?_, ?_⟩
  · simp only [create_network, hkeys, List.length_range, hs1, hp1, matchPairs,
      List.nil_append]
  · rw [hp2, hG1e, matchPairs]


/-- C4: for a division with canonical ids (as built by `readDivision`)
and sufficient against rows, the network builder enumerates every
unordered pair of teams other than the query team exactly once
(`matchPairs` is duplicate-free and holds precisely the pairs
`i < j < n` with both ids distinct from the query id), records in
`saturated_edges` for each such pair the remaining-game count read from
the against data of the roster, creates the Source→matchup edge with
that capacity together with the two matchup→team edges of the same
capacity, and the resulting `totalRemainingCapacity` is the sum of the
per-pair counts. -/
theorem create_network_matchups (d : Division) (tid : Nat)
    (hids : d.teams.map Prod.fst = List.range d.teams.length)
    (htid : tid < d.teams.length)
    (hlen : ∀ p ∈ d.teams, d.teams.length ≤ p.2.against.length) :
    (create_network d tid).2
        = Except.ok ((matchPairs d.teams.length tid).map
            (fun p => (p, gval d.teams p.1 p.2)))
      ∧ totalCap ((matchPairs d.teams.length tid).map (fun p => (p, gval d.teams p.1 p.2)))
          = ((matchPairs d.teams.length tid).map (fun p => gval d.teams p.1 p.2)).sum
      ∧ (∀ p ∈ matchPairs d.teams.length tid,
          (Node.source, Node.matchup p.1 p.2, (gval d.teams p.1 p.2 : Int))
              ∈ (create_network d tid).1.G.edges
            ∧ (Node.matchup p.1 p.2, Node.team p.1, (gval d.teams p.1 p.2 : Int))
              ∈ (create_network d tid).1.G.edges
            ∧ (Node.matchup p.1 p.2, Node.team p.2, (gval d.teams p.1 p.2 : Int))
              ∈ (create_network d tid).1.G.edges)
      ∧ (∀ i j, (i, j) ∈ matchPairs d.teams.length tid
          ↔ (i < j ∧ j < d.teams.length ∧ i ≠ tid ∧ j ≠ tid))
      ∧ (matchPairs d.teams.length tid).Nodup := by
  obtain ⟨q, G2, hq, hcn, hedges⟩ := create_network_canonical d tid hids htid hlen
  refine ⟨by rw [hcn], ?_, ?_, ?_, ?_⟩
  · rw [totalCap_eq_sum, List.map_map]
    rfl
  · intro p hp
    have hmemflat : ∀ e ∈ [(Node.source, Node.matchup p.1 p.2, (gval d.teams p.1 p.2 : Int)),
        (Node.matchup p.1 p.2, Node.team p.1, (gval d.teams p.1 p.2 : Int)),
        (Node.matchup p.1 p.2, Node.team p.2, (gval d.teams p.1 p.2 : Int))],
        e ∈ (create_network d tid).1.G.edges := by
      intro e he
      rw [hcn]
      show e ∈ G2.edges
      rw [hedges]
      exact List.mem_append_right _ (List.mem_flatMap.mpr ⟨p, hp, he⟩)
    exact ⟨hmemflat _ (by simp), hmemflat _ (by simp), hmemflat _ (by simp)⟩
  · intro i j
    simp only [matchPairs, List.mem_filter, mem_pairIndices]
    constructor
    · rintro ⟨⟨h1, h2⟩, h3⟩
      simp only [Bool.not_eq_true', Bool.or_eq_false_iff, beq_eq_false_iff_ne] at h3
      exact ⟨h1, h2, h3.1, h3.2⟩
    · rintro ⟨h1, h2, h3, h4⟩
      refine ⟨⟨h1, h2⟩, ?_⟩
      simp [h3, h4]
  · exact (pairIndices_nodup _).filter _

theorem create_network_matchups_witness :
    exS.teams.map Prod.fst = List.range exS.teams.length
      ∧ 3 < exS.teams.length
      ∧ (∀ p ∈ exS.teams, exS.teams.length ≤ p.2.against.length)
      ∧ (create_network exS 3).2 = Except.ok [((0, 1), 1), ((0, 2), 1), ((1, 2), 1)]
      ∧ (Node.source, Node.matchup 0 1, (gval exS.teams 0 1 : Int))
          ∈ (create_network exS 3).1.G.edges :=
  ⟨by decide, by decide, by decide,
    (create_network_matchups exS 3 (by decide) (by decide) (by decide)).1.trans (by decide),
    ((create_network_matchups exS 3 (by decide) (by decide) (by decide)).2.2.1
      (0, 1) (by decide)).1⟩

theorem pairLoop_preserves_team_edge (teams : List (Nat × Team)) (tid : Nat)
    (tids : List Nat) :
    ∀ (ps : List (Nat × Nat)) (G : Graph) (se : SatEdges) (e : Node × Node × Int) (t : Nat),
    e ∈ G.edges → e.1 = Node.team t →
    e ∈ ((pairLoop teams tid tids ps G se).1.1).edges := by
  intro ps
  induction ps with
  | nil =>
    intro G se e t he hfst
    simpa [pairLoop] using he
  | cons p rest ih =>
    intro G se e t he hfst
    rcases p with ⟨i, j⟩
    by_cases hskip : i = tid ∨ j = tid
    · simp only [pairLoop, if_pos hskip]
      exact ih G se e t he hfst
    · simp only [pairLoop, if_neg hskip]
      cases hlt : lookupTeam teams (i, j).1 with
      | none => simpa [hlt] using he
      | some ti =>
        cases hga : ti.get_against (i, j).2 with
        | error err => simpa [hlt, hga] using he
        | ok g =>
          simp only [hlt, hga]
          apply ih
          · apply mem_add_edge
            apply mem_add_edge
            apply mem_add_edge
            · rw [add_node_edges]
              exact he
            · rintro ⟨he1, he2⟩
              rw [hfst] at he1
              exact Node.noConfusion he1
            · rintro ⟨he1, he2⟩
              rw [hfst] at he1
              exact Node.noConfusion he1
            · rintro ⟨he1, he2⟩
              rw [hfst] at he1
              exact Node.noConfusion he1
          · exact hfst


/-- C7 (amended): whenever the capacity
`queried.wins + queried.remaining - team.wins` would be negative for
some team, the trivial pre-check already proves elimination — the query
returns `true` for every solver oracle and method string — but the
network is still built, and it contains the team→Sink edge with that
negative capacity. -/
theorem negative_capacity_still_built (mfSolver : Graph → Int) (lpSolver : Graph → ℚ)
    (d : Division) (tid t : Nat) (q ct : Team) (solver : String)
    (d1 : Division) (se : SatEdges)
    (hnd : (d.teams.map Prod.fst).Nodup)
    (hq : lookupTeam d.teams tid = some q)
    (hmem : (t, ct) ∈ d.teams)
    (ht : t ≠ tid)
    (hneg : ((q.wins : Int) + q.remaining - ct.wins) < 0)
    (hnet : create_network d tid = (d1, Except.ok se)) :
    is_eliminated mfSolver lpSolver d tid solver = (d1, Except.ok true)
      ∧ (Node.team t, Node.sink, ((q.wins : Int) + q.remaining - ct.wins)) ∈ d1.G.edges := by
  have hw : q.wins + q.remaining < ct.wins := by omega
  refine ⟨is_eliminated_of_trivial mfSolver lpSolver d tid q solver d1 se hq
    ⟨(t, ct), hmem, ht, hw⟩ hnet, ?_⟩
  have hG0 : ((Graph.empty.add_node Node.source).add_node Node.sink).edges = [] := by
    rw [add_node_edges, add_node_edges]
    rfl
  obtain ⟨G1, hs1, hs2⟩ := sinkLoop_spec d.teams tid q hq d.get_team_IDs
    ((Graph.empty.add_node Node.source).add_node Node.sink)
    (fun x hx hxt => lookupTeam_of_mem_keys hx)
    hnd
    (by
      intro x hx e he
      rw [hG0] at he
      simp at he)
  have hwv : wval d.teams t = ct.wins := by
    simp [wval, lookupTeam_of_mem_nodup hnd hmem]
  have hedge : (Node.team t, Node.sink, (q.wins : Int) + q.remaining - ct.wins) ∈ G1.edges := by
    rw [hs2, hG0]
    refine List.mem_append_right _ (List.mem_map.mpr ⟨t, ?_, ?_⟩)
    · refine List.mem_filter.mpr ⟨List.mem_map.mpr ⟨(t, ct), hmem, rfl⟩, ?_⟩
      simp [ht]
    · rw [hwv]
  simp only [create_network, hs1] at hnet
  rcases hpl : pairLoop d.teams tid d.get_team_IDs
      (pairIndices d.get_team_IDs.length) G1 [] with ⟨⟨G2, se2⟩, r⟩
  have hinG2 : (Node.team t, Node.sink, (q.wins : Int) + q.remaining - ct.wins) ∈ G2.edges := by
    have := pairLoop_preserves_team_edge d.teams tid d.get_team_IDs
      (pairIndices d.get_team_IDs.length) G1 []
      (Node.team t, Node.sink, (q.wins : Int) + q.remaining - ct.wins) t hedge rfl
    rw [hpl] at this
    exact this
  cases r with
  | error e2 =>
    rw [hpl] at hnet
    simp at hnet
  | ok u =>
    rw [hpl] at hnet
    simp only [] at hnet
    have hd1 : d1 = { teams := d.teams, G := G2 } := by
      have := (Prod.ext_iff.mp hnet).1
      exact this.symm
    rw [hd1]
    exact hinG2

/-- C7 counterexample: the query for team 0 of `exT` constructs the
network even though team 1 exceeds the ceiling of team 0; the
constructed graph contains the team→Sink edge of team 1 with the
negative capacity `-5`, refuting the claim that a network with a
negative team→Sink capacity is never constructed. -/
theorem negative_capacity_cex :
    (create_network exT 0).2 = Except.ok []
      ∧ (Node.team 1, Node.sink, (-5 : Int)) ∈ (create_network exT 0).1.G.edges
      ∧ (-5 : Int) < 0 := by
  decide

theorem negative_capacity_still_built_witness :
    (exT.teams.map Prod.fst).Nodup
      ∧ (((exTTeamA.wins : Int) + exTTeamA.remaining - exTTeamB.wins) < 0)
      ∧ is_eliminated mfZero lpZero exT 0 "Linear Programming"
          = ((create_network exT 0).1, Except.ok true)
      ∧ (Node.team 1, Node.sink, ((exTTeamA.wins : Int) + exTTeamA.remaining - exTTeamB.wins))
          ∈ (create_network exT 0).1.G.edges :=
  ⟨by decide, by decide,
    (negative_capacity_still_built mfZero lpZero exT 0 1 exTTeamA exTTeamB
      "Linear Programming" (create_network exT 0).1 []
      (by decide) (by decide) (by decide) (by decide) (by decide) (by decide)).1,
    (negative_capacity_still_built mfZero lpZero exT 0 1 exTTeamA exTTeamB
      "Linear Programming" (create_network exT 0).1 []
      (by decide) (by decide) (by decide) (by decide) (by decide) (by decide)).2⟩

end Badminton
